import Mathlib

/-!
Shallow embedding of `src/script.js` of the internet-speed-analysis
repository: the CSV row parser (delegated to the PapaParse library),
the record normalizer `normalizeRaw`, the table filter `refreshTable`,
the aggregations `buildRegionChart`, `drawRegionBar`,
`showHighestLowest`, `showDII`, `showBestImprovement`, and the export
filter of `exportVisibleCSV`.

JavaScript numbers are modelled by `JsNum` (a rational, an infinity, or
NaN); the ECMAScript `Number()` string coercion is modelled by
`jsNumber`, restricted to decimal literals and the `Infinity` tokens
(hexadecimal/octal/binary literals do not occur in this data set).
String methods are modelled executably over the character list:
`jsTrim` for `trim`, `jsToLower` for `toLowerCase` (ASCII case folding;
the data this program handles is ASCII), `strInc` for `includes`.
-/

/-- Model of a JavaScript number: NaN, a signed infinity
(`inf true` is `+Infinity`), or a finite value modelled as a rational. -/
inductive JsNum where
  | nan : JsNum
  | inf : Bool → JsNum
  | fin : ℚ → JsNum
deriving DecidableEq, Repr

/-- JavaScript `-x`. -/
def jsNeg : JsNum → JsNum
  | .nan => .nan
  | .inf b => .inf (!b)
  | .fin q => .fin (-q)

/-- JavaScript `x + y`: NaN propagates, infinities of opposite sign give NaN. -/
def jsAdd : JsNum → JsNum → JsNum
  | .nan, _ => .nan
  | _, .nan => .nan
  | .inf a, .inf b => if a = b then .inf a else .nan
  | .inf a, .fin _ => .inf a
  | .fin _, .inf b => .inf b
  | .fin a, .fin b => .fin (a + b)

/-- JavaScript `x - y`. -/
def jsSub (a b : JsNum) : JsNum := jsAdd a (jsNeg b)

/-- JavaScript `x < y` (false whenever either side is NaN). -/
def jsLtNum : JsNum → JsNum → Bool
  | .nan, _ => false
  | _, .nan => false
  | .inf true, _ => false
  | .inf false, .inf false => false
  | .inf false, _ => true
  | .fin _, .inf b => b
  | .fin a, .fin b => decide (a < b)

/-- JavaScript `x > 0` (false for NaN). -/
def jsPos : JsNum → Bool
  | .nan => false
  | .inf b => b
  | .fin q => decide (0 < q)

/-- Is the value a finite number? -/
def jsFinite : JsNum → Bool
  | .fin _ => true
  | _ => false

/-- JavaScript `Math.max(x, y)`: NaN propagates. -/
def jsMax2 (a b : JsNum) : JsNum :=
  match a, b with
  | .nan, _ => .nan
  | _, .nan => .nan
  | _, _ => if jsLtNum a b then b else a

/-- JavaScript `Math.min(x, y)`: NaN propagates. -/
def jsMin2 (a b : JsNum) : JsNum :=
  match a, b with
  | .nan, _ => .nan
  | _, .nan => .nan
  | _, _ => if jsLtNum b a then b else a

/-- Division of a sum by a positive integer count, as in `sum / count`
(the program only divides when `count` is non-zero). -/
def jsDivNat (s : JsNum) (n : Nat) : JsNum :=
  match s with
  | .nan => .nan
  | .inf b => .inf b
  | .fin q => .fin (q / (n : ℚ))

/-- Numeric value of a decimal digit character. -/
def charDigit (c : Char) : Nat := c.toNat - 48

/-- Parse a non-empty all-digit character list as a natural number. -/
def decNat : List Char → Option Nat
  | l =>
    if l ≠ [] ∧ l.all Char.isDigit then
      some (l.foldl (fun n c => n * 10 + charDigit c) 0)
    else none

/-- Split a character list at the first dot, when present. -/
def splitDot : List Char → List Char × Option (List Char)
  | [] => ([], none)
  | c :: t =>
    if c = '.' then ([], some t)
    else
      let (a, b) := splitDot t
      (c :: a, b)

/-- Split a character list at the first exponent marker, when present. -/
def splitExp : List Char → List Char × Option (List Char)
  | [] => ([], none)
  | c :: t =>
    if c = 'e' ∨ c = 'E' then ([], some t)
    else
      let (a, b) := splitExp t
      (c :: a, b)

/-- Strip an optional leading sign; `true` means negative. -/
def signSplit : List Char → Bool × List Char
  | '+' :: t => (false, t)
  | '-' :: t => (true, t)
  | l => (false, l)

/-- Value of an unsigned decimal mantissa: `digits`, `digits.`,
`.digits` or `digits.digits`. -/
def mantissa (l : List Char) : Option ℚ :=
  let (ip, fpOpt) := splitDot l
  match fpOpt with
  | none => (decNat ip).map (fun n => (n : ℚ))
  | some fp =>
    if ip = [] ∧ fp = [] then none
    else if fp.any (fun c => c = '.') then none
    else if ip.all Char.isDigit ∧ fp.all Char.isDigit then
      some ((ip.foldl (fun n c => n * 10 + charDigit c) 0 : Nat) +
        ((fp.foldl (fun n c => n * 10 + charDigit c) 0 : Nat) : ℚ) / ((10 : ℚ) ^ fp.length))
    else none

/-- Value of a signed decimal literal with optional exponent. -/
def jsDecParse (l : List Char) : Option ℚ :=
  let (neg, l1) := signSplit l
  let (m, eOpt) := splitExp l1
  match mantissa m, eOpt with
  | none, _ => none
  | some q, none => some (if neg then -q else q)
  | some q, some el =>
    let (eneg, ed) := signSplit el
    match decNat ed with
    | none => none
    | some e =>
      let z : ℚ := q * ((10 : ℚ) ^ (if eneg then -(e : ℤ) else (e : ℤ)))
      some (if neg then -z else z)

/-- ASCII whitespace recognized by the model of JavaScript `trim`
(the data handled by this program is ASCII). -/
def wsp (c : Char) : Bool := c = ' ' ∨ c = '\t' ∨ c = '\n' ∨ c = '\r'

/-- Model of JavaScript `s.trim()`: strip leading and trailing
whitespace. -/
def jsTrim (s : String) : String :=
  String.mk (((s.toList.dropWhile wsp).reverse.dropWhile wsp).reverse)

/-- ASCII case folding of one character. -/
def charLower (c : Char) : Char :=
  if 65 ≤ c.toNat ∧ c.toNat ≤ 90 then Char.ofNat (c.toNat + 32) else c

/-- Model of JavaScript `s.toLowerCase()` (ASCII case folding; the data
handled by this program is ASCII). -/
def jsToLower (s : String) : String := String.mk (s.toList.map charLower)

/-- Model of the ECMAScript `Number(string)` coercion used at
`script.js:74-75`, restricted to decimal literals and the `Infinity`
tokens: the input is trimmed, the empty string is `0`, an unparsable
string is NaN (never an error). -/
def jsNumber (s : String) : JsNum :=
  let t := jsTrim s
  if t = "" then .fin 0
  else if t = "Infinity" ∨ t = "+Infinity" then .inf true
  else if t = "-Infinity" then .inf false
  else
    match jsDecParse t.toList with
    | some q => .fin q
    | none => .nan

/-- Is `pat` a leading segment of `hay`? -/
def listPre (pat hay : List Char) : Bool :=
  match pat, hay with
  | [], _ => true
  | _ :: _, [] => false
  | p :: ps, h :: hs => p == h && listPre ps hs

/-- Does `pat` occur contiguously inside `hay`? -/
def listInc (hay pat : List Char) : Bool :=
  match hay with
  | [] => pat.isEmpty
  | c :: t => listPre pat (c :: t) || listInc t pat

/-- Model of JavaScript `hay.includes(pat)` (substring containment). -/
def strInc (hay pat : String) : Bool := listInc hay.toList pat.toList


/-- A normalized record as built by `normalizeRaw` (`script.js:65-82`):
grouping strings plus the two numerically coerced year columns and the
derived growth.  The remaining year columns (2017-2022) are kept as raw
strings by the program and are consumed only by the trend chart, which
none of the claims touch, so they are not modelled. -/
structure Rec where
  country : String
  major_area : String
  region : String
  y2023 : Option JsNum
  y2024 : Option JsNum
  growth : Option JsNum
deriving DecidableEq, Repr

/-- One raw CSV row as delivered by `Papa.parse` with header keying:
the relevant header-named string fields (an absent field is the empty
string, matching the `r[k]===undefined ? "" : ...` guard at line 70). -/
structure RawRow where
  country : String
  major_area : String
  region : String
  y2023 : String
  y2024 : String
deriving DecidableEq, Repr

/-- String-field normalization of `normalizeRaw`: trim, map the
case-insensitive token `"null"` to `null`, then `|| ""` turns `null`
back into the empty string for `country` / `major_area` / `region`. -/
def normStr (s : String) : String :=
  let v := jsTrim s
  if jsToLower v = "null" then ("") else v

/-- Year-field normalization of `normalizeRaw` (lines 70-75): trim,
the token `"null"` becomes `null`; then `rr[y] ? Number(rr[y]) : null`
maps `null` and the (falsy) empty string to `null` and every other
string through `Number`. -/
def normYear (s : String) : Option JsNum :=
  let v := jsTrim s
  if jsToLower v = "null" then none
  else if v = "" then none
  else some (jsNumber v)

/-- `normalizeRaw` on one row (`script.js:65-82`), including the
derived `growth = year2024 - year2023` when both are non-null. -/
def normalizeRecord (r : RawRow) : Rec :=
  let y23 := normYear r.y2023
  let y24 := normYear r.y2024
  { country := normStr r.country
    major_area := normStr r.major_area
    region := normStr r.region
    y2023 := y23
    y2024 := y24
    growth :=
      match y24, y23 with
      | some a, some b => some (jsSub a b)
      | _, _ => none }

/-- `normalizeRaw` over the whole raw row list. -/
def normalizeRaw (rows : List RawRow) : List Rec := rows.map normalizeRecord

/-- The region clause of the `refreshTable` filter (`script.js:118`):
`if (selRegion && selRegion !== "All" && major_area.toLowerCase() !==
selRegion.toLowerCase()) return false`. -/
def regionPred (sel : String) (r : Rec) : Bool :=
  if sel ≠ "" ∧ sel ≠ "All" ∧ jsToLower r.major_area ≠ jsToLower sel then false else true

/-- The search clause of the `refreshTable` filter (`script.js:119`):
`if (q && !country.includes(q) && !region.includes(q)) return false`,
where `q` is already trimmed and lowercased. -/
def searchPred (q : String) (r : Rec) : Bool :=
  if q ≠ "" ∧ strInc (jsToLower r.country) q = false ∧ strInc (jsToLower r.region) q = false then
    false
  else true

/-- The combined record predicate of `refreshTable` (`script.js:117-121`). -/
def displayKeep (sel q : String) (r : Rec) : Bool :=
  if sel ≠ "" ∧ sel ≠ "All" ∧ jsToLower r.major_area ≠ jsToLower sel then false
  else if q ≠ "" ∧ strInc (jsToLower r.country) q = false ∧ strInc (jsToLower r.region) q = false then
    false
  else true

/-- The record predicate of `exportVisibleCSV` (`script.js:276-280`):
same region clause, but the search term is matched against the country
only. -/
def exportKeep (sel q : String) (r : Rec) : Bool :=
  if sel ≠ "" ∧ sel ≠ "All" ∧ jsToLower r.major_area ≠ jsToLower sel then false
  else if q ≠ "" ∧ strInc (jsToLower r.country) q = false then false
  else true

/-- The filtered subset computed by `refreshTable` (`script.js:113-121`)
from the stored rows, the region selection, and the raw search-box text
(which the function trims and lowercases). -/
def refreshFilter (rows : List Rec) (sel qRaw : String) : List Rec :=
  let q := jsToLower (jsTrim qRaw)
  rows.filter (fun r => displayKeep sel q r)

/-- The filtered subset exported by `exportVisibleCSV`
(`script.js:273-283`); the subsequent `Papa.unparse` serialization is
out of scope. -/
def exportVisibleCSV (rows : List Rec) (sel qRaw : String) : List Rec :=
  let q := jsToLower (jsTrim qRaw)
  rows.filter (fun r => exportKeep sel q r)

/-- Scanner state for one CSV line: outside quotes, inside quotes, or
just after a quote character met inside quotes. -/
inductive QS where
  | outQ : QS
  | inQ : QS
  | afterQ : QS
deriving DecidableEq, Repr

/-- Field scanner for one CSV line as performed by the PapaParse
library that `loadCSV` (`script.js:49-63`) delegates to (the code
comment there reads "PapaParse handles edge cases"): fields are
separated by commas, a field starting with a double quote extends to
the matching close quote, commas inside quotes are literal, and a
doubled quote inside a quoted field denotes one literal quote.
`fld` is the reversed current field, `out` the finished fields. -/
def papaLineAux (st : QS) (fld : List Char) (out : List String) : List Char → List String
  | [] => out ++ [String.mk fld.reverse]
  | c :: t =>
    match st with
    | .outQ =>
      if c = ',' then papaLineAux .outQ [] (out ++ [String.mk fld.reverse]) t
      else if c = '"' ∧ fld = [] then papaLineAux .inQ [] out t
      else papaLineAux .outQ (c :: fld) out t
    | .inQ =>
      if c = '"' then papaLineAux .afterQ fld out t
      else papaLineAux .inQ (c :: fld) out t
    | .afterQ =>
      if c = '"' then papaLineAux .inQ ('"' :: fld) out t
      else if c = ',' then papaLineAux .outQ [] (out ++ [String.mk fld.reverse]) t
      else papaLineAux .outQ (c :: fld) out t

/-- The fields of one CSV line under the quote-aware parsing of
PapaParse. -/
def papaLine (s : String) : List String := papaLineAux .outQ [] [] s.toList

/-- Split a character list at every comma. -/
def splitComma : List Char → List (List Char)
  | [] => [[]]
  | c :: t =>
    if c = ',' then [] :: splitComma t
    else
      match splitComma t with
      | [] => [[c]]
      | f :: rest => (c :: f) :: rest

/-- Modelled from the spec: the quote-blind row splitting that the spec
attributes to the row parser ("splits each line on the field delimiter
with NO support for quoted fields"), for comparison with `papaLine`. -/
def naiveSplitLine (s : String) : List String := (splitComma s.toList).map String.mk

/-- One group accumulator entry of `buildRegionChart`: key, running
sum, running count of non-null 2024 values. -/
abbrev GEntry := String × JsNum × Nat

/-- Add one non-null 2024 contribution to an entry
(`map[ma].sum += v; map[ma].count++`); a null value leaves it as is. -/
def bumpE (e : GEntry) (v : Option JsNum) : GEntry :=
  match v with
  | some x => (e.1, jsAdd e.2.1 x, e.2.2 + 1)
  | none => e

/-- A fresh accumulator entry (`{sum:0,count:0}`) immediately updated
with the record's 2024 value when that value is non-null. -/
def initE (k : String) (v : Option JsNum) : GEntry :=
  match v with
  | some x => (k, jsAdd (.fin 0) x, 1)
  | none => (k, .fin 0, 0)

/-- Update the association list for key `k` with a record's 2024 value,
appending a fresh entry when the key is new (JavaScript object keys
keep insertion order for the non-integer-like keys this data has). -/
def addTo (k : String) (v : Option JsNum) : List GEntry → List GEntry
  | [] => [initE k v]
  | e :: t => if e.1 = k then bumpE e v :: t else e :: addTo k v t

/-- One `forEach` step of `buildRegionChart` (`script.js:221-226`):
skip records whose trimmed `major_area` is empty, otherwise update that
key's accumulator entry. -/
def regStep (m : List GEntry) (r : Rec) : List GEntry :=
  if jsTrim r.major_area = "" then m else addTo (jsTrim r.major_area) r.y2024 m

/-- The grouping accumulator of `buildRegionChart` after the `forEach`
over all stored rows. -/
def regionGroups (rows : List Rec) : List GEntry := rows.foldl regStep []

/-- `{k, avg: map[k].count ? map[k].sum/map[k].count : 0}`
(`script.js:227`). -/
def groupAvg (e : GEntry) : String × JsNum :=
  (e.1, if e.2.2 ≠ 0 then jsDivNat e.2.1 e.2.2 else .fin 0)

/-- The stable-sort order realized by the ECMAScript `Array.sort` with
comparator `(a,b) => b.val - a.val`: `a` may stay before `b` unless the
comparator is positive (a NaN comparator value counts as zero). -/
def byValDesc (a b : String × JsNum) : Prop := jsPos (jsSub b.2 a.2) = false

instance : DecidableRel byValDesc := fun _ _ => instDecidableEqBool _ _

/-- The sorted `(key, average)` array `arr` of `buildRegionChart`
(`script.js:227-228`); the chart then takes the first 8 entries and
rounds the displayed numbers, which is presentation only. -/
def buildRegionChart (rows : List Rec) : List (String × JsNum) :=
  List.insertionSort byValDesc ((regionGroups rows).map groupAvg)

/-- The first 8 chart labels (`script.js:229`). -/
def buildRegionChartLabels (rows : List Rec) : List String :=
  ((buildRegionChart rows).take 8).map Prod.fst

/-- The `byCountry` list of `drawRegionBar` (`script.js:242`): project
to `(country, year-2024 value)`, drop null values, sort descending by
value with the stable `Array.sort`, keep the first 10. -/
def drawRegionBar (rows : List Rec) : List (String × JsNum) :=
  (List.insertionSort byValDesc
    (rows.filterMap fun r => r.y2024.map (fun v => (r.country, v)))).take 10

/-- The region filter shared by the three analysis buttons
(`script.js:173,189,202`): `selRegion === "All" ||
major_area.toLowerCase() === selRegion.toLowerCase()`. -/
def hlKeep (sel : String) (r : Rec) : Bool :=
  if sel = "All" ∨ jsToLower r.major_area = jsToLower sel then true else false

/-- Replace the running best when the candidate is strictly better
(`if (!best || better) best = candidate`). -/
def updBest (better : JsNum → JsNum → Bool) (cur : Option (String × JsNum))
    (name : String) (s : JsNum) : Option (String × JsNum) :=
  match cur with
  | none => some (name, s)
  | some c => if better s c.2 then some (name, s) else some c

/-- One `forEach` step of `showHighestLowest` (`script.js:175-178`):
null 2024 values are skipped, otherwise the highest and lowest
candidates and the `found` counter are updated. -/
def hlStep (st : Option (String × JsNum) × Option (String × JsNum) × Nat) (r : Rec) :
    Option (String × JsNum) × Option (String × JsNum) × Nat :=
  match r.y2024 with
  | none => st
  | some s =>
    (updBest (fun x y => jsLtNum y x) st.1 r.country s,
     updBest (fun x y => jsLtNum x y) st.2.1 r.country s,
     st.2.2 + 1)

/-- Outcome of `showHighestLowest`: the explicit no-data message, a
result, or the (unreachable) crash of reading `highest.name` from a
null `highest`. -/
inductive HLOut where
  | noData : HLOut
  | crash : HLOut
  | result : String × JsNum → String × JsNum → Nat → HLOut
deriving DecidableEq, Repr

/-- Outcome assembly of `showHighestLowest` (`script.js:179-184`): the
message "No 2024 data in this region." when nothing was found, else the
extremes (reading `highest.name` / `lowest.speed` would crash when the
scan left them null). -/
def hlAssemble (st : Option (String × JsNum) × Option (String × JsNum) × Nat) : HLOut :=
  if st.2.2 = 0 then .noData
  else
    match st.1, st.2.1 with
    | some hi, some lo => .result hi lo st.2.2
    | _, _ => .crash

/-- `showHighestLowest` (`script.js:171-185`): filter by region, scan
for extremes of the 2024 values, then assemble the outcome. -/
def showHighestLowest (tbl : List Rec) (sel : String) : HLOut :=
  hlAssemble ((tbl.filter (fun r => hlKeep sel r)).foldl hlStep (none, none, 0))

/-- Outcome of `showDII`: the explicit no-data message or the range
with its extremes and the number of data points used. -/
inductive DIIOut where
  | noData : DIIOut
  | result : JsNum → JsNum → JsNum → Nat → DIIOut
deriving DecidableEq, Repr

/-- `showDII` (`script.js:200-211`): filter by region, collect non-null
2024 values, message "No 2024 speed values in this region." when the
list is empty, else report `max - min` (the spread forms
`Math.max(...values)` / `Math.min(...values)`). -/
def showDII (tbl : List Rec) (sel : String) : DIIOut :=
  let rows := tbl.filter (fun r => hlKeep sel r)
  let values := rows.filterMap (fun r => r.y2024)
  if values = [] then .noData
  else
    let mx := values.foldl jsMax2 (.inf false)
    let mn := values.foldl jsMin2 (.inf true)
    .result (jsSub mx mn) mx mn values.length

/-- Outcome of `showBestImprovement`. -/
inductive ImpOut where
  | noData : ImpOut
  | result : String → JsNum → Nat → ImpOut
deriving DecidableEq, Repr

/-- One `forEach` step of `showBestImprovement` (`script.js:191-193`):
records with null growth are skipped. -/
def impStep (st : Option (String × JsNum) × Nat) (r : Rec) :
    Option (String × JsNum) × Nat :=
  match r.growth with
  | none => st
  | some g => (updBest (fun x y => jsLtNum y x) st.1 r.country g, st.2 + 1)

/-- `showBestImprovement` (`script.js:187-198`): filter by region, scan
for the largest growth, message when no record had both years. -/
def showBestImprovement (tbl : List Rec) (sel : String) : ImpOut :=
  let rows := tbl.filter (fun r => hlKeep sel r)
  let st := rows.foldl impStep (none, 0)
  match st.1 with
  | none => .noData
  | some b => .result b.1 b.2 st.2

/-- The sortable column keys of the data table (`data-key` attributes
consumed at `script.js:37`). -/
inductive SKey where
  | country : SKey
  | major_area : SKey
  | region : SKey
  | y2023 : SKey
  | y2024 : SKey
  | growth : SKey
deriving DecidableEq, Repr

/-- A JavaScript value read from a row for sorting: a string or a
number. -/
inductive JsVal where
  | s : String → JsVal
  | n : JsNum → JsVal
deriving DecidableEq, Repr

/-- `a[sortKey] ?? ""` (`script.js:126-127`): a null year or growth
column falls back to the empty string. -/
def getSortVal (k : SKey) (r : Rec) : JsVal :=
  match k with
  | .country => .s r.country
  | .major_area => .s r.major_area
  | .region => .s r.region
  | .y2023 => match r.y2023 with | some v => .n v | none => .s ("")
  | .y2024 => match r.y2024 with | some v => .n v | none => .s ("")
  | .growth => match r.growth with | some v => .n v | none => .s ("")

/-- `if (typeof A === "string") A = A.toLowerCase()` (`script.js:128-129`). -/
def lowerVal : JsVal → JsVal
  | .s x => .s (jsToLower x)
  | .n x => .n x

/-- JavaScript `A < B` on the sort values: both strings compare
lexicographically, otherwise the string side is coerced with `Number`
and the comparison is numeric (false when a side is NaN). -/
def jsLtVal : JsVal → JsVal → Bool
  | .s a, .s b => decide (a < b)
  | .n a, .n b => jsLtNum a b
  | .s a, .n b => jsLtNum (jsNumber a) b
  | .n a, .s b => jsLtNum a (jsNumber b)

/-- The stable order realized by the sort comparator of `refreshTable`
(`script.js:125-133`): `a` may stay before `b` unless the comparator
returns a positive number. -/
def rowLe (k : SKey) (asc : Bool) (a b : Rec) : Prop :=
  (let va := lowerVal (getSortVal k a)
   let vb := lowerVal (getSortVal k b)
   if asc then jsLtVal vb va else jsLtVal va vb) = false

instance (k : SKey) (asc : Bool) : DecidableRel (rowLe k asc) :=
  fun _ _ => instDecidableEqBool _ _

/-- The ambient mutable state read and written by `refreshTable`
(`script.js:2-7` plus the two input widgets it reads). -/
structure AppState where
  tableRows : List Rec
  currentPage : Nat
  pageSize : Nat
  sortKey : Option SKey
  sortAsc : Bool
  selRegion : String
  searchQ : String
deriving DecidableEq, Repr

/-- `refreshTable` (`script.js:113-145`) as a state transformer
returning the final global state and the rendered page.  `filter`
returns a fresh array (ECMAScript), so the in-place `list.sort` at
line 125 reorders only that copy and the model threads `tableRows`
through unchanged.  The out-of-range recursion at line 139 clamps
`currentPage` to the last page and re-runs; with a positive page size
the re-run takes the normal path over the same filtered list, so it is
modelled by applying the clamp once before slicing. -/
def refreshTable (st : AppState) : AppState × List Rec :=
  let list := refreshFilter st.tableRows st.selRegion st.searchQ
  let sorted :=
    match st.sortKey with
    | none => list
    | some k => List.insertionSort (rowLe k st.sortAsc) list
  let total := sorted.length
  let start := (st.currentPage - 1) * st.pageSize
  let cp :=
    if start ≥ total ∧ 0 < total then (total + st.pageSize - 1) / st.pageSize
    else st.currentPage
  let page := (sorted.drop ((cp - 1) * st.pageSize)).take st.pageSize
  ({ st with currentPage := cp }, page)

/-- Sample normalized record: Afghanistan (both years present). -/
def recAsia : Rec :=
  { country := "Afghanistan", major_area := "Asia", region := "Southern Asia",
    y2023 := some (.fin 2), y2024 := some (.fin 5),
    growth := some (.fin 3) }

/-- Sample normalized record: only the 2024 value present. -/
def recBrazil : Rec :=
  { country := "Brazil", major_area := "Americas", region := "South America",
    y2023 := none, y2024 := some (.fin 10), growth := none }

/-- Sample normalized record with an empty `major_area`. -/
def recNoMA : Rec :=
  { country := "Chad", major_area := "", region := "Middle Africa",
    y2023 := none, y2024 := some (.fin 5), growth := none }

/-- Sample normalized record with no year data at all. -/
def recNoData : Rec :=
  { country := "Denmark", major_area := "Europe", region := "Northern Europe",
    y2023 := none, y2024 := none, growth := none }

/-- Sample normalized record in group "Asia" with a null 2024 value. -/
def recANull : Rec :=
  { country := "Laos", major_area := "Asia", region := "South-eastern Asia",
    y2023 := none, y2024 := none, growth := none }

/-- C1 counterexample: on the raw year value `"abc"` the normalizer
stores `Number("abc") = NaN` — a defined, non-finite number value that
is neither a finite number nor the missing sentinel `null`, refuting
"a parse failure yields missing rather than ... producing a non-finite
value". -/
theorem C1_counterexample :
    (normalizeRecord
      { country := "X", major_area := "Asia", region := "R",
        y2023 := "abc", y2024 := "1" }).y2023 = some JsNum.nan ∧
    jsFinite JsNum.nan = false := by
  decide

/-- C1 (amended): for every raw field value the normalizer trims
whitespace, maps the case-insensitive token "null" and the empty string
to the missing sentinel `null`, and parses any other string with
`Number`; a parse failure yields the non-finite value NaN stored in the
field (never an exception), not the missing sentinel. -/
theorem C1_year_coercion (raw : RawRow) :
    ((jsToLower (jsTrim raw.y2023) = "null" ∨ jsTrim raw.y2023 = "") →
      (normalizeRecord raw).y2023 = none) ∧
    (jsToLower (jsTrim raw.y2023) ≠ "null" → jsTrim raw.y2023 ≠ "" →
      (normalizeRecord raw).y2023 = some (jsNumber (jsTrim raw.y2023))) ∧
    ((jsToLower (jsTrim raw.y2024) = "null" ∨ jsTrim raw.y2024 = "") →
      (normalizeRecord raw).y2024 = none) ∧
    (jsToLower (jsTrim raw.y2024) ≠ "null" → jsTrim raw.y2024 ≠ "" →
      (normalizeRecord raw).y2024 = some (jsNumber (jsTrim raw.y2024))) := by
  have h23 : (normalizeRecord raw).y2023 = normYear raw.y2023 := rfl
  have h24 : (normalizeRecord raw).y2024 = normYear raw.y2024 := rfl
  rw [h23, h24]
  unfold normYear
  refine ⟨?_, ?_, ?_, ?_⟩
  · rintro (h | h)
    · simp [h]
    · have h0 : jsToLower (jsTrim raw.y2023) = "" := by rw [h]; rfl
      simp [h, h0]
  · intro h1 h2
    simp [h1, h2]
  · rintro (h | h)
    · simp [h]
    · have h0 : jsToLower (jsTrim raw.y2024) = "" := by rw [h]; rfl
      simp [h, h0]
  · intro h1 h2
    simp [h1, h2]

/-- C1 witness: the coercion theorem applied to the raw value `"7"`,
which parses to the finite number 7. -/
theorem C1_witness :
    (normalizeRecord
      { country := "Albania", major_area := "Europe", region := "Southern Europe",
        y2023 := "7", y2024 := "1" }).y2023 = some (JsNum.fin 7) := by
  have h := (C1_year_coercion
    { country := "Albania", major_area := "Europe", region := "Southern Europe",
      y2023 := "7", y2024 := "1" }).2.1 (by decide) (by decide)
  rw [h]
  decide

/-- C7: the derived growth equals the 2024 value minus the 2023 value
when both are present (non-null), and is the missing value `null`
whenever either year value is missing. -/
theorem C7_growth (raw : RawRow) :
    (∀ a b, (normalizeRecord raw).y2024 = some a → (normalizeRecord raw).y2023 = some b →
      (normalizeRecord raw).growth = some (jsSub a b)) ∧
    ((normalizeRecord raw).y2024 = none ∨ (normalizeRecord raw).y2023 = none →
      (normalizeRecord raw).growth = none) := by
  have h23 : (normalizeRecord raw).y2023 = normYear raw.y2023 := rfl
  have h24 : (normalizeRecord raw).y2024 = normYear raw.y2024 := rfl
  have hg : (normalizeRecord raw).growth =
      (match normYear raw.y2024, normYear raw.y2023 with
       | some a, some b => some (jsSub a b)
       | _, _ => none) := rfl
  rw [h23, h24, hg]
  cases h4 : normYear raw.y2024 <;> cases h3 : normYear raw.y2023 <;>
    simp

/-- C7 witness: the growth theorem applied to a raw row with 2023 value
2 and 2024 value 5, giving growth 5 - 2 = 3. -/
theorem C7_witness :
    (normalizeRecord
      { country := "Armenia", major_area := "Asia", region := "Western Asia",
        y2023 := "2", y2024 := "5" }).growth = some (JsNum.fin 3) := by
  have h := (C7_growth
    { country := "Armenia", major_area := "Asia", region := "Western Asia",
      y2023 := "2", y2024 := "5" }).1 (.fin 5) (.fin 2) (by decide) (by decide)
  rw [h]
  show some (jsSub (.fin 5) (.fin 2)) = some (JsNum.fin 3)
  simp [jsSub, jsAdd, jsNeg]
  norm_num

/-- Inside a quoted field, the scanner copies quote-free characters
verbatim until the closing quote. -/
theorem papaLineAux_inQ (l : List Char) (h : '"' ∉ l) :
    ∀ (fld : List Char) (out : List String) (rest : List Char),
      papaLineAux .inQ fld out (l ++ '"' :: rest) =
        papaLineAux .afterQ (l.reverse ++ fld) out rest := by
  induction l with
  | nil =>
    intro fld out rest
    simp [papaLineAux]
  | cons c t ih =>
    intro fld out rest
    have hc : c ≠ '"' := by
      intro he
      exact h (he ▸ List.mem_cons_self c t)
    have ht : '"' ∉ t := fun hm => h (List.mem_cons_of_mem c hm)
    simp only [List.cons_append, papaLineAux, if_neg hc, List.append_eq]
    rw [ih ht (c :: fld) out rest]
    simp

/-- C3 (amended): the row parser delegates to PapaParse, which does
support quoted fields: a field wrapped in quotes — commas included — is
parsed as that single field, so a quoted comma does not create extra
fields. -/
theorem C3_quoted_field (l : List Char) (h : '"' ∉ l) :
    papaLine (String.mk ('"' :: (l ++ ['"']))) = [String.mk l] := by
  show papaLineAux .outQ [] [] ('"' :: (l ++ ['"'])) = [String.mk l]
  have h1 : papaLineAux .outQ [] [] ('"' :: (l ++ ['"'])) =
      papaLineAux .inQ [] [] (l ++ ['"']) := by
    simp [papaLineAux]
  rw [h1]
  have h2 : l ++ ['"'] = l ++ '"' :: [] := rfl
  rw [h2, papaLineAux_inQ l h [] [] []]
  simp [papaLineAux]

/-- C3 counterexample: on the line `"a,b",c` the parser used by this
variant produces the two fields `a,b` and `c`, not the three fields
that delimiter-blind splitting (shown alongside) would produce; the
claimed mis-parsing into extra fields does not happen. -/
theorem C3_counterexample :
    papaLine ("\"a,b\",c") = ["a,b", "c"] ∧
    naiveSplitLine ("\"a,b\",c") = ["\"a", "b\"", "c"] ∧
    (["a,b", "c"] : List String).length ≠ (["\"a", "b\"", "c"] : List String).length := by
  refine ⟨by decide, by decide, by decide⟩

/-- C3 witness: the quoted-field theorem applied to the field content
`a,b`, which contains the delimiter and no quote. -/
theorem C3_witness :
    papaLine (String.mk ('"' :: (("a,b").toList ++ ['"']))) = [String.mk (("a,b").toList)] := by
  exact C3_quoted_field (("a,b").toList) (by decide)

/-- Projecting to `(country, 2024 value)` and dropping nulls keeps
exactly the records whose 2024 value is non-null. -/
theorem length_project2024 (rows : List Rec) :
    (rows.filterMap fun r => r.y2024.map (fun v => (r.country, v))).length =
      rows.countP (fun r => r.y2024.isSome) := by
  induction rows with
  | nil => rfl
  | cons r t ih =>
    cases hv : r.y2024 <;>
      simp [List.filterMap_cons, List.countP_cons, hv, ih]

/-- C4 (amended): the top-N ranking of `drawRegionBar` first drops the
records whose 2024 value is null, then stable-sorts descending by value
and takes the first 10; its length is `min 10 k` where `k` is the
number of records with a non-null 2024 value (not the subset size). -/
theorem C4_topN (rows : List Rec) :
    (drawRegionBar rows).length = min 10 (rows.countP (fun r => r.y2024.isSome)) ∧
    drawRegionBar rows =
      (List.insertionSort byValDesc
        (rows.filterMap fun r => r.y2024.map (fun v => (r.country, v)))).take 10 := by
  constructor
  · show ((List.insertionSort byValDesc
      (rows.filterMap fun r => r.y2024.map (fun v => (r.country, v)))).take 10).length = _
    rw [List.length_take, List.length_insertionSort, length_project2024]
  · rfl

/-- C4 counterexample: a one-record subset whose 2024 value is null
yields an empty ranking, so the length is 0, not
`min(10, records.length) = 1`. -/
theorem C4_counterexample :
    ([recNoData] : List Rec).length = 1 ∧
    (drawRegionBar [recNoData]).length = 0 ∧
    (0 : Nat) ≠ min 10 1 := by
  refine ⟨rfl, by decide, by decide⟩

/-- C5 counterexample: with region selection "Southern Asia" the record
whose `region` is exactly "Southern Asia" (case-insensitively) but
whose `major_area` is "Asia" is dropped by `refreshTable`, although the
claim says a region match keeps it. -/
theorem C5_counterexample :
    jsToLower recAsia.region = jsToLower ("Southern Asia") ∧
    refreshFilter [recAsia] ("Southern Asia") ("") = [] := by
  refine ⟨by decide, by decide⟩

/-- C5 (amended): a non-sentinel region-select value keeps a record iff
it matches the record's `major_area` (and only `major_area` — the
`region` column is not consulted) by case-insensitive comparison; the
sentinel "All" and the empty selection keep every record. -/
theorem C5_regionFilter (sel : String) (r : Rec) :
    (sel ≠ "" → sel ≠ "All" →
      refreshFilter [r] sel ("") =
        (if jsToLower r.major_area = jsToLower sel then [r] else [])) ∧
    refreshFilter [r] ("All") ("") = [r] ∧
    refreshFilter [r] ("") ("") = [r] := by
  have hq : jsToLower (jsTrim ("")) = "" := rfl
  refine ⟨?_, ?_, ?_⟩
  · intro h1 h2
    by_cases hm : jsToLower r.major_area = jsToLower sel
    · simp [refreshFilter, displayKeep, hq, h1, h2, hm]
    · simp [refreshFilter, displayKeep, hq, h1, h2, hm]
  · simp [refreshFilter, displayKeep, hq]
  · simp [refreshFilter, displayKeep, hq]

/-- C5 witness: the amended region-filter theorem applied to the
selection "Asia" and a record whose `major_area` is "Asia". -/
theorem C5_witness : refreshFilter [recAsia] ("Asia") ("") = [recAsia] := by
  have h := (C5_regionFilter ("Asia") recAsia).1 (by decide) (by decide)
  rw [h]
  decide

/-- The combined predicate of `refreshTable` is the conjunction of its
region clause and its search clause. -/
theorem displayKeep_split (sel q : String) (r : Rec) :
    displayKeep sel q r = (regionPred sel r && searchPred q r) := by
  unfold displayKeep regionPred searchPred
  split_ifs <;> simp_all

/-- The search clause succeeds exactly on the empty term or on a
case-insensitive substring hit in `country` or `region`. -/
theorem searchPred_eq (q : String) (r : Rec) :
    searchPred q r =
      (q == "" || strInc (jsToLower r.country) q || strInc (jsToLower r.region) q) := by
  unfold searchPred
  by_cases hq : q = "" <;>
    cases hc : strInc (jsToLower r.country) q <;>
    cases hr : strInc (jsToLower r.region) q <;>
    simp [hq, hc, hr]

/-- C6: with both a region selection and a search term, the displayed
subset is exactly the region filter and the search filter applied
conjunctively to the same base list, and the search clause matches by
case-insensitive substring against `country` OR `region`. -/
theorem C6_conjunction (rows : List Rec) (sel qRaw : String) :
    refreshFilter rows sel qRaw =
      (rows.filter (fun r => regionPred sel r)).filter
        (fun r => searchPred (jsToLower (jsTrim qRaw)) r) ∧
    (∀ q r, searchPred q r =
      (q == "" || strInc (jsToLower r.country) q || strInc (jsToLower r.region) q)) := by
  constructor
  · show rows.filter (fun r => displayKeep sel (jsToLower (jsTrim qRaw)) r) = _
    rw [List.filter_filter]
    refine List.filter_congr ?_
    intro r _
    rw [displayKeep_split, Bool.and_comm]
  · exact fun q r => searchPred_eq q r

/-- Filtering with a pointwise-stronger predicate yields a sublist of
filtering with the weaker one. -/
theorem filter_sublist_of_imp {α : Type} (p q : α → Bool)
    (h : ∀ a, p a = true → q a = true) :
    ∀ l : List α, List.Sublist (l.filter p) (l.filter q) := by
  intro l
  induction l with
  | nil => simp
  | cons a t ih =>
    by_cases hp : p a = true
    · have hq := h a hp
      simp only [List.filter_cons, hp, hq, if_pos]
      exact ih.cons₂ a
    · have hp0 : p a = false := by
        cases hpa : p a
        · rfl
        · exact absurd hpa hp
      by_cases hq : q a = true
      · simp only [List.filter_cons, hp0, hq, if_pos, Bool.false_eq_true, if_false]
        exact ih.cons a
      · have hq0 : q a = false := by
          cases hqa : q a
          · rfl
          · exact absurd hqa hq
        simp only [List.filter_cons, hp0, hq0, Bool.false_eq_true, if_false]
        exact ih

/-- A record kept by the export filter is kept by the display filter:
the region clauses agree and a `country` substring hit implies a
`country`-or-`region` hit. -/
theorem export_imp_display (sel q : String) (r : Rec) :
    exportKeep sel q r = true → displayKeep sel q r = true := by
  unfold exportKeep displayKeep
  split_ifs <;> simp_all

/-- C9: for all inputs the exported subset is a sublist of the
displayed subset, and the inclusion is strict for a record whose
`region` (but not `country`) contains the search term: it is displayed
yet missing from the export, because `exportVisibleCSV` matches the
term against `country` only. -/
theorem C9_export_subset :
    (∀ (rows : List Rec) (sel qRaw : String),
      List.Sublist (exportVisibleCSV rows sel qRaw) (refreshFilter rows sel qRaw)) ∧
    refreshFilter [recBrazil] ("All") ("SOUTH") = [recBrazil] ∧
    exportVisibleCSV [recBrazil] ("All") ("SOUTH") = [] := by
  refine ⟨?_, by decide, by decide⟩
  intro rows sel qRaw
  exact filter_sublist_of_imp _ _
    (fun r => export_imp_display sel (jsToLower (jsTrim qRaw)) r) rows

/-- C10: `refreshTable` never mutates the stored record set — for every
state the `tableRows` component of the resulting state is identical (in
content and order) to the input one.  In the source this holds because
`filter` returns a fresh array and the in-place `sort` touches only
that copy; the model accordingly threads `tableRows` through while
`currentPage` may be rewritten by the clamping branch of line 139. -/
theorem C10_frame (st : AppState) : (refreshTable st).1.tableRows = st.tableRows := rfl


/-- `updBest` always produces a candidate. -/
theorem updBest_isSome (better : JsNum → JsNum → Bool)
    (cur : Option (String × JsNum)) (name : String) (s : JsNum) :
    (updBest better cur name s).isSome = true := by
  cases cur with
  | none => rfl
  | some c =>
    simp only [updBest]
    split_ifs <;> rfl

/-- Invariant of the `showHighestLowest` scan: the `found` counter adds
the number of non-null 2024 values, and the extremes are present iff
they were present initially or some usable value was met. -/
theorem hl_fold_inv (rows : List Rec) :
    ∀ st : Option (String × JsNum) × Option (String × JsNum) × Nat,
      (rows.foldl hlStep st).2.2 = st.2.2 + rows.countP (fun r => r.y2024.isSome) ∧
      (rows.foldl hlStep st).1.isSome =
        (st.1.isSome || rows.any (fun r => r.y2024.isSome)) ∧
      (rows.foldl hlStep st).2.1.isSome =
        (st.2.1.isSome || rows.any (fun r => r.y2024.isSome)) := by
  induction rows with
  | nil => simp
  | cons r t ih =>
    intro st
    rw [List.foldl_cons]
    cases hv : r.y2024 with
    | none =>
      have hstep : hlStep st r = st := by unfold hlStep; rw [hv]
      rw [hstep]
      simp [List.countP_cons, hv, ih st]
    | some s =>
      have hstep : hlStep st r =
          (updBest (fun x y => jsLtNum y x) st.1 r.country s,
           updBest (fun x y => jsLtNum x y) st.2.1 r.country s,
           st.2.2 + 1) := by unfold hlStep; rw [hv]
      rw [hstep]
      have h := ih (updBest (fun x y => jsLtNum y x) st.1 r.country s,
        updBest (fun x y => jsLtNum x y) st.2.1 r.country s, st.2.2 + 1)
      rw [h.1, h.2.1, h.2.2]
      simp [List.countP_cons, hv, updBest_isSome]
      omega

/-- Invariant of the `showBestImprovement` scan. -/
theorem imp_fold_inv (rows : List Rec) :
    ∀ st : Option (String × JsNum) × Nat,
      (rows.foldl impStep st).1.isSome =
        (st.1.isSome || rows.any (fun r => r.growth.isSome)) := by
  induction rows with
  | nil => simp
  | cons r t ih =>
    intro st
    rw [List.foldl_cons]
    cases hv : r.growth with
    | none =>
      have hstep : impStep st r = st := by unfold impStep; rw [hv]
      rw [hstep]
      simp [hv, ih st]
    | some g =>
      have hstep : impStep st r =
          (updBest (fun x y => jsLtNum y x) st.1 r.country g, st.2 + 1) := by
        unfold impStep; rw [hv]
      rw [hstep]
      rw [ih (updBest (fun x y => jsLtNum y x) st.1 r.country g, st.2 + 1)]
      simp [hv, updBest_isSome]

/-- C8: every analysis degrades gracefully on an empty subset: with no
records, or no records carrying a usable year value, `showHighestLowest`,
`showDII` and `showBestImprovement` each return their explicit no-data
outcome, and `showHighestLowest` can never reach the state that would
dereference a null extreme (never raises). -/
theorem C8_empty_input (tbl : List Rec) (sel : String) :
    showHighestLowest [] sel = .noData ∧
    ((tbl.filter (fun r => hlKeep sel r)).countP (fun r => r.y2024.isSome) = 0 →
      showHighestLowest tbl sel = .noData) ∧
    showHighestLowest tbl sel ≠ .crash ∧
    showDII [] sel = .noData ∧
    ((tbl.filter (fun r => hlKeep sel r)).filterMap (fun r => r.y2024) = [] →
      showDII tbl sel = .noData) ∧
    showBestImprovement [] sel = .noData ∧
    ((tbl.filter (fun r => hlKeep sel r)).countP (fun r => r.growth.isSome) = 0 →
      showBestImprovement tbl sel = .noData) := by
  have hinv := hl_fold_inv (tbl.filter (fun r => hlKeep sel r)) (none, none, 0)
  refine ⟨rfl, ?_, ?_, rfl, ?_, rfl, ?_⟩
  · intro h0
    show hlAssemble _ = _
    unfold hlAssemble
    rw [if_pos (by rw [hinv.1, h0])]
  · show hlAssemble _ ≠ _
    by_cases h0 :
        (tbl.filter (fun r => hlKeep sel r)).countP (fun r => r.y2024.isSome) = 0
    · unfold hlAssemble
      rw [if_pos (by rw [hinv.1, h0])]
      exact fun hcon => HLOut.noConfusion hcon
    · have hany : (tbl.filter (fun r => hlKeep sel r)).any
          (fun r => r.y2024.isSome) = true := by
        rw [List.any_eq_true]
        exact List.countP_pos_iff.mp (Nat.pos_of_ne_zero h0)
      have h1 := hinv.2.1
      have h2 := hinv.2.2
      rw [hany] at h1 h2
      obtain ⟨hi, hhi⟩ := Option.isSome_iff_exists.mp (by simpa using h1)
      obtain ⟨lo, hlo⟩ := Option.isSome_iff_exists.mp (by simpa using h2)
      unfold hlAssemble
      split_ifs with hz
      · exact fun hcon => HLOut.noConfusion hcon
      · rw [hhi, hlo]
        exact fun hcon => HLOut.noConfusion hcon
  · intro h
    simp only [showDII]
    rw [if_pos h]
  · intro h0
    have hany : (tbl.filter (fun r => hlKeep sel r)).any
        (fun r => r.growth.isSome) = false := by
      rw [List.any_eq_false]
      exact fun r hr => by
        have := List.countP_eq_zero.mp h0 r hr
        simpa using this
    have h1 := imp_fold_inv (tbl.filter (fun r => hlKeep sel r)) (none, 0)
    rw [hany] at h1
    have hnone : ((tbl.filter (fun r => hlKeep sel r)).foldl impStep (none, 0)).1 =
        none := by
      rw [← Option.not_isSome_iff_eq_none, h1]
      simp
    simp only [showBestImprovement]
    rw [hnone]

/-- C8 witness: the graceful-degradation theorem applied to a one-record
subset whose record carries no usable year values. -/
theorem C8_witness :
    showHighestLowest [recNoData] ("All") = .noData ∧
    showDII [recNoData] ("All") = .noData ∧
    showBestImprovement [recNoData] ("All") = .noData := by
  have h := C8_empty_input [recNoData] ("All")
  exact ⟨h.2.1 (by decide), h.2.2.2.2.1 (by decide), h.2.2.2.2.2.2 (by decide)⟩

/-- Spec-side description of the grouping of `buildRegionChart`: one
step of collecting the group keys in first-seen order, skipping records
whose trimmed `major_area` is empty. -/
def groupKeysStep (ks : List String) (r : Rec) : List String :=
  if jsTrim r.major_area = "" then ks
  else if jsTrim r.major_area ∈ ks then ks
  else ks ++ [jsTrim r.major_area]

/-- The group keys of a record list in first-seen order. -/
def groupKeys (rows : List Rec) : List String := rows.foldl groupKeysStep []

/-- The non-null 2024 values of the records of group `k`, in order. -/
def groupVals (rows : List Rec) (k : String) : List JsNum :=
  rows.filterMap (fun r => if jsTrim r.major_area = k then r.y2024 else none)

/-- Spec-side accumulator entry of group `k`: the key, the sum of the
group's non-null 2024 values, and their count. -/
def specEntry (rows : List Rec) (k : String) : GEntry :=
  (k, (groupVals rows k).foldl jsAdd (.fin 0), (groupVals rows k).length)

/-- Appending a record adds one key-collection step. -/
theorem groupKeys_append (rows : List Rec) (r : Rec) :
    groupKeys (rows ++ [r]) = groupKeysStep (groupKeys rows) r := by
  simp [groupKeys, List.foldl_append]

/-- Membership in the collected keys: a key is present iff it was
present initially or is the non-empty trimmed `major_area` of some
record. -/
theorem mem_groupKeys_foldl (rows : List Rec) :
    ∀ (ks : List String) (k : String),
      k ∈ rows.foldl groupKeysStep ks ↔
        k ∈ ks ∨ (k ≠ "" ∧ ∃ r ∈ rows, jsTrim r.major_area = k) := by
  induction rows with
  | nil => simp
  | cons r t ih =>
    intro ks k
    rw [List.foldl_cons, ih]
    have hstep : k ∈ groupKeysStep ks r ↔
        k ∈ ks ∨ (k ≠ "" ∧ jsTrim r.major_area = k) := by
      unfold groupKeysStep
      split_ifs with h1 h2
      · constructor
        · exact fun h => Or.inl h
        · rintro (h | ⟨hk, hr⟩)
          · exact h
          · exact absurd (hr ▸ h1) hk
      · constructor
        · exact fun h => Or.inl h
        · rintro (h | ⟨hk, hr⟩)
          · exact h
          · exact hr ▸ h2
      · rw [List.mem_append, List.mem_singleton]
        constructor
        · rintro (h | h)
          · exact Or.inl h
          · exact Or.inr ⟨h ▸ h1, h.symm⟩
        · rintro (h | ⟨hk, hr⟩)
          · exact Or.inl h
          · exact Or.inr hr.symm
    rw [hstep]
    constructor
    · rintro ((h | h) | ⟨hk, r0, hr0, hma⟩)
      · exact Or.inl h
      · exact Or.inr ⟨h.1, r, List.mem_cons_self r t, h.2⟩
      · exact Or.inr ⟨hk, r0, List.mem_cons_of_mem r hr0, hma⟩
    · rintro (h | ⟨hk, r0, hr0, hma⟩)
      · exact Or.inl (Or.inl h)
      · rcases List.mem_cons.mp hr0 with he | ht
        · exact Or.inl (Or.inr ⟨hk, he ▸ hma⟩)
        · exact Or.inr ⟨hk, r0, ht, hma⟩

/-- The collected keys never contain the empty string. -/
theorem groupKeys_ne_empty (rows : List Rec) (k : String) (h : k ∈ groupKeys rows) :
    k ≠ "" := by
  rcases (mem_groupKeys_foldl rows [] k).mp h with h0 | ⟨hk, _⟩
  · exact absurd h0 (List.not_mem_nil k)
  · exact hk

/-- The collected keys are distinct. -/
theorem groupKeys_nodup (rows : List Rec) :
    ∀ ks : List String, ks.Nodup → (rows.foldl groupKeysStep ks).Nodup := by
  induction rows with
  | nil => exact fun ks h => h
  | cons r t ih =>
    intro ks hks
    rw [List.foldl_cons]
    refine ih (groupKeysStep ks r) ?_
    unfold groupKeysStep
    split_ifs with h1 h2
    · exact hks
    · exact hks
    · rw [List.nodup_append]
      exact ⟨hks, List.nodup_singleton _, by
        intro a ha hb
        rw [List.mem_singleton] at hb
        exact h2 (hb ▸ ha)⟩

/-- Appending a record appends its non-null 2024 value to its group's
value list and leaves other groups' lists unchanged. -/
theorem groupVals_append (rows : List Rec) (r : Rec) (k : String) :
    groupVals (rows ++ [r]) k =
      groupVals rows k ++
        (if jsTrim r.major_area = k then r.y2024.toList else []) := by
  unfold groupVals
  rw [List.filterMap_append]
  congr 1
  split_ifs with h
  · simp [List.filterMap, h]
    cases r.y2024 <;> rfl
  · simp [List.filterMap, h]

/-- A record of another group leaves a group's spec entry unchanged. -/
theorem specEntry_append_other (rows : List Rec) (r : Rec) (k : String)
    (h : jsTrim r.major_area ≠ k) :
    specEntry (rows ++ [r]) k = specEntry rows k := by
  unfold specEntry
  rw [groupVals_append, if_neg h, List.append_nil]

/-- A record of group `k` bumps that group's spec entry exactly like
the accumulator update of `buildRegionChart`. -/
theorem specEntry_append_same (rows : List Rec) (r : Rec) (k : String)
    (h : jsTrim r.major_area = k) :
    specEntry (rows ++ [r]) k = bumpE (specEntry rows k) r.y2024 := by
  unfold specEntry
  rw [groupVals_append, if_pos h]
  cases hv : r.y2024 with
  | none => simp [bumpE]
  | some x => simp [bumpE, List.foldl_append]

/-- A group absent from the collected keys has no values. -/
theorem groupVals_nil_of_not_mem (rows : List Rec) (k : String) (hk : k ≠ "")
    (h : k ∉ groupKeys rows) : groupVals rows k = [] := by
  unfold groupVals
  rw [List.filterMap_eq_nil_iff]
  intro r hr
  rw [if_neg]
  intro hma
  exact h ((mem_groupKeys_foldl rows [] k).mpr (Or.inr ⟨hk, r, hr, hma⟩))

/-- `addTo` on a fresh key appends a fresh entry at the end. -/
theorem addTo_not_mem (k : String) (v : Option JsNum) :
    ∀ (ks : List String) (f : String → GEntry),
      (∀ j, (f j).1 = j) → k ∉ ks →
      addTo k v (ks.map f) = ks.map f ++ [initE k v] := by
  intro ks
  induction ks with
  | nil => intro f _ _; rfl
  | cons j t ih =>
    intro f hf hk
    have hj : j ≠ k := fun he => hk (he ▸ List.mem_cons_self j t)
    rw [List.map_cons]
    show addTo k v (f j :: t.map f) = _
    unfold addTo
    rw [if_neg (by rw [hf j]; exact hj)]
    rw [ih f hf (fun hm => hk (List.mem_cons_of_mem j hm))]
    simp

/-- `addTo` on a present key bumps exactly that key's entry. -/
theorem addTo_mem (k : String) (v : Option JsNum) :
    ∀ (ks : List String) (f : String → GEntry),
      (∀ j, (f j).1 = j) → ks.Nodup → k ∈ ks →
      addTo k v (ks.map f) =
        ks.map (fun j => if j = k then bumpE (f k) v else f j) := by
  intro ks
  induction ks with
  | nil => intro f _ _ h; exact absurd h (List.not_mem_nil k)
  | cons j t ih =>
    intro f hf hnd hk
    have hndt : t.Nodup := (List.nodup_cons.mp hnd).2
    have hjt : j ∉ t := (List.nodup_cons.mp hnd).1
    rw [List.map_cons, List.map_cons]
    show addTo k v (f j :: t.map f) = _
    unfold addTo
    by_cases hj : j = k
    · rw [if_pos (by rw [hf j, hj])]
      rw [if_pos hj, hj]
      congr 1
      refine (List.map_congr_left ?_).symm
      intro a ha
      have hak : a ≠ k := fun he => hjt (by rw [hj, ← he]; exact ha)
      rw [if_neg hak]
    · rw [if_neg (by rw [hf j]; exact hj), if_neg hj]
      have hkt : k ∈ t := by
        rcases List.mem_cons.mp hk with he | ht
        · exact absurd he.symm hj
        · exact ht
      rw [ih f hf hndt hkt]

/-- The accumulator of `buildRegionChart` refines the spec-side
description: after the scan it holds, in first-seen key order, one
entry per non-empty trimmed `major_area`, carrying the sum and the
count of that group's non-null 2024 values. -/
theorem regionGroups_eq_spec (rows : List Rec) :
    regionGroups rows = (groupKeys rows).map (specEntry rows) := by
  induction rows using List.reverseRecOn with
  | nil => rfl
  | append_singleton rs r ih =>
    have hfold : regionGroups (rs ++ [r]) = regStep (regionGroups rs) r := by
      simp [regionGroups, List.foldl_append]
    rw [hfold, ih, groupKeys_append]
    unfold regStep groupKeysStep
    by_cases hma : jsTrim r.major_area = ""
    · rw [if_pos hma, if_pos hma]
      refine List.map_congr_left ?_
      intro k hk
      exact (specEntry_append_other rs r k
        (fun he => groupKeys_ne_empty rs k hk (he ▸ hma))).symm
    · rw [if_neg hma, if_neg hma]
      by_cases hmem : jsTrim r.major_area ∈ groupKeys rs
      · rw [if_pos hmem]
        rw [addTo_mem (jsTrim r.major_area) r.y2024 (groupKeys rs)
          (specEntry rs) (fun j => rfl) (groupKeys_nodup rs [] (List.nodup_nil)) hmem]
        refine (List.map_congr_left ?_).symm
        intro k hk
        by_cases hkma : k = jsTrim r.major_area
        · rw [if_pos hkma, hkma]
          exact specEntry_append_same rs r (jsTrim r.major_area) rfl
        · rw [if_neg hkma]
          exact specEntry_append_other rs r k (fun he => hkma he.symm)
      · rw [if_neg hmem]
        rw [addTo_not_mem (jsTrim r.major_area) r.y2024 (groupKeys rs)
          (specEntry rs) (fun j => rfl) hmem]
        rw [List.map_append, List.map_singleton]
        congr 1
        · refine (List.map_congr_left ?_).symm
          intro k hk
          exact specEntry_append_other rs r k
            (fun he => hmem (he ▸ hk))
        · have hvals : groupVals rs (jsTrim r.major_area) = [] :=
            groupVals_nil_of_not_mem rs (jsTrim r.major_area) hma hmem
          have hsame := specEntry_append_same rs r (jsTrim r.major_area) rfl
          rw [hsame]
          unfold specEntry
          rw [hvals]
          cases hv : r.y2024 with
          | none => rfl
          | some x => rfl

/-- C2 (amended): `buildRegionChart` partitions by the trimmed
`major_area` only — records whose trimmed `major_area` is empty are
skipped entirely (there is no `region` fallback and no "Unknown"
bucket) — each group's average divides the sum of the group's non-null
2024 values by the count of those non-null values (0 when the group has
none), and the group list is stable-sorted descending by average, ties
in first-seen order. -/
theorem C2_groupAverage (rows : List Rec) :
    buildRegionChart rows =
      List.insertionSort byValDesc
        ((groupKeys rows).map (fun k => groupAvg (specEntry rows k))) := by
  unfold buildRegionChart
  rw [regionGroups_eq_spec, List.map_map]
  rfl

/-- C2 counterexample: (1) a record with an empty `major_area` but a
non-empty `region` is dropped from the grouping, although under the
claimed key (`region`, then `majorArea`, then "Unknown") it would form
a group; (2) a two-record group with one null 2024 value averages
`5 / 1 = 5`, not the claimed `sum/count(records in group) = 5/2`. -/
theorem C2_counterexample :
    buildRegionChart [recNoMA] = [] ∧
    recNoMA.region = "Middle Africa" ∧
    buildRegionChart [recAsia, recANull] = [("Asia", JsNum.fin 5)] := by
  refine ⟨by decide, rfl, ?_⟩
  have h2 : buildRegionChart [recAsia, recANull] =
      [("Asia", jsDivNat (jsAdd (.fin 0) (.fin 5)) 1)] := rfl
  rw [h2]
  norm_num [jsDivNat, jsAdd]
